import Mathlib

/-!
Shallow embedding of the PicnicHood backend's Membership & Voting Engine and
Order Pricing Engine (src/controllers/communityController.js and the order
controller), together with proofs of the specification's claims about them.

Identities (Mongo ObjectIds) are modelled as `Nat`.  Record attributes that no
modelled operation reads or writes (community name, location, timestamps,
article name/unit/category/image/availability, order delivery date contents)
are omitted from the structures; every field an operation touches is kept.
Monetary amounts are modelled as `ℚ` (the spec demands decimal-safe
arithmetic; all constants in the source and spec are exact decimals).
Persistence is modelled as an explicit `AppState` record threaded through the
operations; a handler returns the persisted state together with an
`Except ApiError` response.
-/

/-! ### Definitions: data model and operations -/

deriving instance DecidableEq for Except

/-- The delivery-time slots, `enum: ['Morning', 'Afternoon', 'Evening']`. -/

inductive DeliveryTime where
  | Morning
  | Afternoon
  | Evening
deriving DecidableEq, Repr

/-- Weekday enum of the community preferences schema. -/

inductive Day where
  | Monday | Tuesday | Wednesday | Thursday | Friday | Saturday | Sunday
deriving DecidableEq, Repr

/-- One roster entry: `{ user: ObjectId, deliveryTime: enum }`. -/

structure Member where
  user : Nat
  deliveryTime : DeliveryTime
deriving DecidableEq, Repr

/-- `preferences: { deliveryDay, deliveryTime }` of a community. -/

structure Preferences where
  deliveryDay : Day
  deliveryTime : DeliveryTime
deriving DecidableEq, Repr

/-- A community document: id, member roster, derived preferences. -/

structure Community where
  id : Nat
  members : List Member
  preferences : Preferences
deriving DecidableEq, Repr

/-- A user document: id and the optional single-community affiliation. -/

structure User where
  id : Nat
  community : Option Nat
deriving DecidableEq, Repr

/-- A catalog article: id and its current price (`price: Number, min: 0`). -/

structure Article where
  id : Nat
  price : ℚ
deriving DecidableEq, Repr

/-- One order line: `{ article: ObjectId, quantity: Number }`. -/

structure OrderItem where
  article : Nat
  quantity : Nat
deriving DecidableEq, Repr

/-- `status` enum of the order schema. -/

inductive OrderStatus where
  | pending | processing | delivered | cancelled
deriving DecidableEq, Repr

/-- An order document, with the frozen `totalAmount` computed at creation. -/

structure Order where
  id : Nat
  user : Nat
  community : Nat
  items : List OrderItem
  totalAmount : ℚ
  deliveryDate : Nat
  status : OrderStatus
deriving DecidableEq, Repr

/-- The error taxonomy of the handlers (HTTP statuses in the source). -/

inductive ApiError where
  | NotFound
  | AlreadyMember
  | AlreadyInAnotherCommunity
  | Forbidden
  | PriceNotFound
  | Unexpected
deriving DecidableEq, Repr

/-- The persistent store: the four collections. -/

structure AppState where
  users : List User
  communities : List Community
  articles : List Article
  orders : List Order
deriving DecidableEq, Repr

/-- Outcome of a handler call: the state as persisted afterwards, and the
response (success payload or error). -/

structure Step (α : Type) where
  state : AppState
  result : Except ApiError α
deriving Repr

/-- `Community.findById` over the store. -/

def findCommunity (s : AppState) (cid : Nat) : Option Community :=
  s.communities.find? (fun c => c.id = cid)

/-- `User.findById` over the store. -/

def findUser (s : AppState) (uid : Nat) : Option User :=
  s.users.find? (fun u => u.id = uid)

/-- `community.save()`: replace the stored document with the same `_id`. -/

def setCommunity (s : AppState) (c : Community) : AppState :=
  { s with communities := s.communities.map (fun d => if d.id = c.id then c else d) }

/-- `user.save()`: replace the stored document with the same `_id`. -/

def setUser (s : AppState) (u : User) : AppState :=
  { s with users := s.users.map (fun v => if v.id = u.id then u else v) }

/-- `community.members.some(member => member.user.equals(userId))`. -/

def inRoster (c : Community) (uid : Nat) : Bool :=
  c.members.any (fun m => m.user = uid)

/-- The tally of one slot over the roster (the `timeCounts` forEach loop). -/

def countTime (ms : List Member) (t : DeliveryTime) : Nat :=
  (ms.filter (fun m => m.deliveryTime = t)).length

/-- The plurality winner of `updateCommunityDeliveryTime`:
start with `mostPopularTime = Morning, maxVotes = count(Morning)`; if
`count(Afternoon) > maxVotes` reassign both; finally if
`count(Evening) > maxVotes` the winner is Evening (strict comparisons only). -/

def mostPopularTime (ms : List Member) : DeliveryTime :=
  let morningCount := countTime ms .Morning
  let afternoonCount := countTime ms .Afternoon
  let eveningCount := countTime ms .Evening
  let picked :=
    if afternoonCount > morningCount then (DeliveryTime.Afternoon, afternoonCount)
    else (DeliveryTime.Morning, morningCount)
  if eveningCount > picked.2 then DeliveryTime.Evening else picked.1

/-- `updateCommunityDeliveryTime(community)` as a pure document update: writes
the plurality winner into `preferences.deliveryTime` (the `save()` it performs
is the enclosing handler's write of the updated document). -/

def updateCommunityDeliveryTime (c : Community) : Community :=
  { c with preferences := { c.preferences with deliveryTime := mostPopularTime c.members } }

/-- `createCommunity`: a fresh community whose roster is the single founding
member with default choice Morning and schema-default preferences.  Note the
founding user's own document is not touched by this handler. -/

def createCommunity (s : AppState) (uid : Nat) (newId : Nat) : Step Community :=
  let c : Community :=
    { id := newId
      members := [{ user := uid, deliveryTime := .Morning }]
      preferences := { deliveryDay := .Monday, deliveryTime := .Morning } }
  { state := { s with communities := s.communities ++ [c] }, result := .ok c }

/-- `joinCommunity`, with the success of the two sequential writes
(`user.save()` first, then `community.save()`) made explicit so that storage
failures between them are expressible.  A failed save persists nothing of its
own document; a failure surfaces as the catch-all 500. -/

def joinCommunity (s : AppState) (cid uid : Nat)
    (userSaveOk communitySaveOk : Bool) : Step Community :=
  match findCommunity s cid with
  | none => { state := s, result := .error .NotFound }
  | some c =>
    if inRoster c uid then
      { state := s, result := .error .AlreadyMember }
    else
      match findUser s uid with
      | none => { state := s, result := .error .Unexpected }
      | some u =>
        if u.community.isSome then
          { state := s, result := .error .AlreadyInAnotherCommunity }
        else
          let c' := { c with members := c.members ++ [{ user := uid, deliveryTime := .Morning }] }
          let u' := { u with community := some c.id }
          if userSaveOk then
            if communitySaveOk then
              { state := setCommunity (setUser s u') c', result := .ok c' }
            else
              { state := setUser s u', result := .error .Unexpected }
          else
            { state := s, result := .error .Unexpected }

/-- The roster/preferences update performed by `leaveCommunity` on the found
community: filter the user out, and when members remain recompute the derived
delivery time. -/

def leaveUpdate (c : Community) (uid : Nat) : Community :=
  if (c.members.filter (fun m => !(m.user = uid))).length > 0 then
    updateCommunityDeliveryTime { c with members := c.members.filter (fun m => !(m.user = uid)) }
  else
    { c with members := c.members.filter (fun m => !(m.user = uid)) }

/-- `leaveCommunity`: 404 when the community is missing; otherwise persist the
filtered (and possibly re-derived) community.  The user document is never
touched. -/

def leaveCommunity (s : AppState) (cid uid : Nat) : Step Unit :=
  match findCommunity s cid with
  | none => { state := s, result := .error .NotFound }
  | some c => { state := setCommunity s (leaveUpdate c uid), result := .ok () }

/-- `community.members[memberIndex].deliveryTime = deliveryTime` where
`memberIndex` is the first index whose user matches (`findIndex`). -/

def setChoiceFirst : List Member → Nat → DeliveryTime → List Member
  | [], _, _ => []
  | m :: ms, uid, t =>
    if m.user = uid then { m with deliveryTime := t } :: ms
    else m :: setChoiceFirst ms uid t

/-- `voteForDeliveryTime`: 404 when the community is missing, 403 when the
caller is not on the roster; otherwise overwrite the caller's choice and
recompute the derived delivery time. -/

def voteForDeliveryTime (s : AppState) (cid uid : Nat) (choice : DeliveryTime) : Step Unit :=
  match findCommunity s cid with
  | none => { state := s, result := .error .NotFound }
  | some c =>
    if inRoster c uid then
      let c1 := { c with members := setChoiceFirst c.members uid choice }
      { state := setCommunity s (updateCommunityDeliveryTime c1), result := .ok () }
    else
      { state := s, result := .error .Forbidden }

/-- `updatePreferences`: direct administrative overwrite of both preference
fields, independent of the tally. -/

def updatePreferences (s : AppState) (cid : Nat) (day : Day) (time : DeliveryTime) : Step Unit :=
  match findCommunity s cid with
  | none => { state := s, result := .error .NotFound }
  | some c =>
    { state := setCommunity s { c with preferences := { deliveryDay := day, deliveryTime := time } }
      result := .ok () }

/-- Price lookup in the catalog (`articlePriceMap[item.article.toString()]`). -/

def priceLookup (catalog : List Article) (aid : Nat) : Option ℚ :=
  (catalog.find? (fun a => a.id = aid)).map (fun a => a.price)

/-- The `items.reduce` loop of `createOrder`: accumulate
`total + price * quantity`, throwing when `!articlePrice` — i.e. when the
article is absent from the map or its price is the falsy number 0. -/

def computeTotal (catalog : List Article) : List OrderItem → ℚ → Except ApiError ℚ
  | [], total => .ok total
  | item :: rest, total =>
    match priceLookup catalog item.article with
    | none => .error .PriceNotFound
    | some p =>
      if p = 0 then .error .PriceNotFound
      else computeTotal catalog rest (total + p * (item.quantity : ℚ))

/-- `createOrder`: compute the total over the current catalog; on success
persist a new `pending` order carrying the frozen total; on failure persist
nothing. -/

def createOrder (s : AppState) (uid cid : Nat) (items : List OrderItem)
    (deliveryDate : Nat) (newId : Nat) : Step Order :=
  match computeTotal s.articles items 0 with
  | .error e => { state := s, result := .error e }
  | .ok total =>
    let o : Order :=
      { id := newId, user := uid, community := cid, items := items
        totalAmount := total, deliveryDate := deliveryDate, status := .pending }
    { state := { s with orders := s.orders ++ [o] }, result := .ok o }

/-- `deleteOrder`: `findOneAndDelete({ _id, user })` — the existence check and
the ownership check are one combined query; no match is a single 404. -/

def deleteOrder (s : AppState) (oid uid : Nat) : Step Unit :=
  match s.orders.find? (fun o => o.id = oid && o.user = uid) with
  | none => { state := s, result := .error .NotFound }
  | some _ =>
    { state := { s with orders := s.orders.eraseP (fun o => o.id = oid && o.user = uid) }
      result := .ok () }

def stateC3 : AppState :=
  { users := [{ id := 5, community := some 1 }]
    communities :=
      [{ id := 1, members := [{ user := 5, deliveryTime := .Morning }]
         preferences := { deliveryDay := .Monday, deliveryTime := .Morning } }]
    articles := [], orders := [] }

def stateC7 : AppState :=
  { users := [{ id := 5, community := some 1 }, { id := 6, community := some 1 }]
    communities :=
      [{ id := 1
         members := [{ user := 5, deliveryTime := .Morning }, { user := 6, deliveryTime := .Evening }]
         preferences := { deliveryDay := .Monday, deliveryTime := .Morning } }]
    articles := [], orders := [] }

def communityC7 : Community :=
  { id := 1
    members := [{ user := 5, deliveryTime := .Morning }, { user := 6, deliveryTime := .Evening }]
    preferences := { deliveryDay := .Monday, deliveryTime := .Morning } }

def stateC9 : AppState :=
  { users := [], communities := [], articles := []
    orders := [{ id := 10, user := 3, community := 1, items := [], totalAmount := 0
                 deliveryDate := 0, status := .pending }] }

/-- The price the `reduce` loop reads for an article id: the looked-up price,
with a missing article reading as the (equally falsy) 0. -/

def priceOf (catalog : List Article) (aid : Nat) : ℚ :=
  (priceLookup catalog aid).getD 0

def stateC5 : AppState :=
  { users := [], communities := [], articles := [{ id := 1, price := 0 }], orders := [] }

def stateC8 : AppState :=
  { users := [], communities := []
    articles := [{ id := 1, price := 5 / 2 }, { id := 2, price := 1 }], orders := [] }

def stateC8x : AppState :=
  { users := [], communities := []
    articles := [{ id := 3, price := 0 }, { id := 4, price := 2 }], orders := [] }

def stateC2 : AppState :=
  { users := [{ id := 7, community := none }]
    communities :=
      [{ id := 1, members := [{ user := 8, deliveryTime := .Morning }]
         preferences := { deliveryDay := .Monday, deliveryTime := .Morning } }]
    articles := [], orders := [] }

def communityC2 : Community :=
  { id := 1, members := [{ user := 8, deliveryTime := .Morning }]
    preferences := { deliveryDay := .Monday, deliveryTime := .Morning } }

/-- The spec's bidirectional membership invariant: a user's non-null
`community` reference points at a community they are on the roster of (and at
no other), every non-null reference resolves, and every roster entry belongs
to a known user. -/

def consistentState (s : AppState) : Prop :=
  (∀ u ∈ s.users, ∀ c ∈ s.communities, (u.community = some c.id ↔ inRoster c u.id = true)) ∧
  (∀ u ∈ s.users, u.community = none ∨ ∃ c ∈ s.communities, u.community = some c.id) ∧
  (∀ c ∈ s.communities, ∀ m ∈ c.members, ∃ u ∈ s.users, u.id = m.user)

/-- Document ids are unique keys in their collections. -/

def wellFormed (s : AppState) : Prop :=
  (s.users.map (fun u => u.id)).Nodup ∧ (s.communities.map (fun c => c.id)).Nodup

instance (s : AppState) : Decidable (consistentState s) := by
  unfold consistentState
  infer_instance

instance (s : AppState) : Decidable (wellFormed s) := by
  unfold wellFormed
  infer_instance

def stateC4 : AppState :=
  { users := [{ id := 7, community := none }], communities := [], articles := [], orders := [] }

def stateC4w : AppState :=
  { users := [{ id := 7, community := none }, { id := 8, community := some 1 }]
    communities :=
      [{ id := 1, members := [{ user := 8, deliveryTime := .Morning }]
         preferences := { deliveryDay := .Monday, deliveryTime := .Morning } }]
    articles := [], orders := [] }

/-- Uniqueness of `userRef` within a roster. -/

def rosterNodup (c : Community) : Prop :=
  (c.members.map (fun m => m.user)).Nodup

instance (c : Community) : Decidable (rosterNodup c) := by
  unfold rosterNodup
  infer_instance

def stateC6 : AppState :=
  { users := [{ id := 5, community := some 1 }]
    communities :=
      [{ id := 1, members := [{ user := 5, deliveryTime := .Afternoon }]
         preferences := { deliveryDay := .Monday, deliveryTime := .Afternoon } }]
    articles := [], orders := [] }

/-! ### Theorems -/

theorem mostPopularTime_eq (ms : List Member) :
    mostPopularTime ms =
      if countTime ms .Afternoon > countTime ms .Morning then
        (if countTime ms .Evening > countTime ms .Afternoon then .Evening else .Afternoon)
      else
        (if countTime ms .Evening > countTime ms .Morning then .Evening else .Morning) := by
  simp only [mostPopularTime]
  by_cases hA : countTime ms .Afternoon > countTime ms .Morning <;> simp [hA]

/-- C1: the plurality recomputation writes into `preferences.deliveryTime` the
winner of: start at Morning with Morning's count; Afternoon replaces it only
when strictly greater; Evening wins only when strictly greater than the
Morning-or-Afternoon winner.  Hence Morning wins every tie it is part of,
Evening must strictly beat `max(count Morning, count Afternoon)`, and the four
sample rosters resolve as the spec states. -/
theorem plurality_recomputation_rule :
    (∀ c : Community,
      (updateCommunityDeliveryTime c).preferences.deliveryTime = mostPopularTime c.members) ∧
    (∀ ms : List Member,
      (mostPopularTime ms = .Evening ↔
        countTime ms .Evening > max (countTime ms .Morning) (countTime ms .Afternoon)) ∧
      (mostPopularTime ms = .Afternoon ↔
        countTime ms .Afternoon > countTime ms .Morning ∧
        countTime ms .Evening ≤ countTime ms .Afternoon) ∧
      (mostPopularTime ms = .Morning ↔
        countTime ms .Afternoon ≤ countTime ms .Morning ∧
        countTime ms .Evening ≤ countTime ms .Morning)) ∧
    mostPopularTime [⟨0, .Morning⟩, ⟨1, .Morning⟩, ⟨2, .Evening⟩] = .Morning ∧
    mostPopularTime [⟨0, .Afternoon⟩, ⟨1, .Afternoon⟩, ⟨2, .Evening⟩, ⟨3, .Evening⟩] = .Afternoon ∧
    mostPopularTime [⟨0, .Evening⟩, ⟨1, .Evening⟩, ⟨2, .Morning⟩] = .Evening ∧
    mostPopularTime [⟨0, .Morning⟩] = .Morning := by
  refine ⟨fun c => rfl, fun ms => ?_, by decide, by decide, by decide, by decide⟩
  rw [mostPopularTime_eq]
  split_ifs with h1 h2 h2 <;>
    refine ⟨?_, ?_, ?_⟩ <;> simp_all <;> omega

/-- C3: voting by a user who is not on the roster fails with `Forbidden` and
the persisted state is exactly the input state (roster and preferences
untouched). -/
theorem vote_nonmember_forbidden_unchanged
    (s : AppState) (cid uid : Nat) (choice : DeliveryTime) (c : Community)
    (hc : findCommunity s cid = some c) (hm : inRoster c uid = false) :
    voteForDeliveryTime s cid uid choice = { state := s, result := .error .Forbidden } := by
  simp [voteForDeliveryTime, hc, hm]

theorem vote_nonmember_forbidden_unchanged_witness :
    voteForDeliveryTime stateC3 1 7 .Evening = { state := stateC3, result := .error .Forbidden } :=
  vote_nonmember_forbidden_unchanged stateC3 1 7 .Evening
    { id := 1, members := [{ user := 5, deliveryTime := .Morning }]
      preferences := { deliveryDay := .Monday, deliveryTime := .Morning } }
    (by decide) (by decide)

/-- C10: `leave` mutates only the community record — the users, articles and
orders collections are exactly as before, whatever the call's outcome; in
particular the departing user's `community` back-reference is not cleared. -/
theorem leave_frame_users_untouched (s : AppState) (cid uid : Nat) :
    (leaveCommunity s cid uid).state.users = s.users ∧
    (leaveCommunity s cid uid).state.articles = s.articles ∧
    (leaveCommunity s cid uid).state.orders = s.orders := by
  cases hc : findCommunity s cid <;> simp [leaveCommunity, hc, setCommunity]

theorem find?_replace (l : List Community) (cid : Nat) (c c' : Community)
    (hf : l.find? (fun d => d.id = cid) = some c) (hid : c'.id = cid) :
    (l.map (fun d => if d.id = c'.id then c' else d)).find? (fun d => d.id = cid) = some c' := by
  induction l with
  | nil => simp at hf
  | cons e l ih =>
    by_cases he : e.id = cid
    · simp only [List.map_cons, hid, he, if_pos]
      exact List.find?_cons_of_pos _ (by simp [hid])
    · rw [List.find?_cons_of_neg _ (by simp [he])] at hf
      have he' : ¬(e.id = c'.id) := by rw [hid]; exact he
      simp only [List.map_cons, if_neg he']
      rw [List.find?_cons_of_neg _ (by simp [he])]
      exact ih hf

theorem findCommunity_setCommunity (s : AppState) (cid : Nat) (c c' : Community)
    (hf : findCommunity s cid = some c) (hid : c'.id = cid) :
    findCommunity (setCommunity s c') cid = some c' := by
  simpa [findCommunity, setCommunity] using find?_replace s.communities cid c c' hf hid

theorem findCommunity_id (s : AppState) (cid : Nat) (c : Community)
    (hf : findCommunity s cid = some c) : c.id = cid := by
  have := List.find?_some hf
  simpa using this

theorem leaveUpdate_id (c : Community) (uid : Nat) : (leaveUpdate c uid).id = c.id := by
  unfold leaveUpdate updateCommunityDeliveryTime
  split <;> rfl

theorem leaveUpdate_members (c : Community) (uid : Nat) :
    (leaveUpdate c uid).members = c.members.filter (fun m => !(m.user = uid)) := by
  unfold leaveUpdate updateCommunityDeliveryTime
  split <;> rfl

theorem leaveUpdate_preferences (c : Community) (uid : Nat) :
    (leaveUpdate c uid).preferences =
      if (c.members.filter (fun m => !(m.user = uid))).length > 0 then
        { c.preferences with
          deliveryTime := mostPopularTime (c.members.filter (fun m => !(m.user = uid))) }
      else c.preferences := by
  by_cases h : (c.members.filter (fun m => !(m.user = uid))).length > 0 <;>
    simp [leaveUpdate, updateCommunityDeliveryTime, h]

/-- C7: `leave` on an existing community always succeeds; the persisted
community is the old one with every `(userId, *)` entry filtered out, so a
non-member's call leaves the roster unchanged (the roster equals the old one
exactly when the user was not a member) and a member's entry is removed; the
derived delivery time is recomputed by the plurality rule exactly when the
resulting roster is non-empty, and preferences are left as they were when it
becomes empty. -/
theorem leave_semantics (s : AppState) (cid uid : Nat) (c : Community)
    (hc : findCommunity s cid = some c) :
    (∃ s', leaveCommunity s cid uid = { state := s', result := .ok () } ∧
      findCommunity s' cid = some (leaveUpdate c uid)) ∧
    ((leaveUpdate c uid).members = c.members ↔ inRoster c uid = false) ∧
    inRoster (leaveUpdate c uid) uid = false ∧
    (∀ m ∈ c.members, m.user ≠ uid → m ∈ (leaveUpdate c uid).members) ∧
    (∀ m ∈ (leaveUpdate c uid).members, m ∈ c.members) ∧
    ((leaveUpdate c uid).members ≠ [] →
      (leaveUpdate c uid).preferences.deliveryTime = mostPopularTime (leaveUpdate c uid).members) ∧
    ((leaveUpdate c uid).members = [] → (leaveUpdate c uid).preferences = c.preferences) := by
  refine ⟨⟨setCommunity s (leaveUpdate c uid), by simp [leaveCommunity, hc], ?_⟩,
    ?_, ?_, ?_, ?_, ?_, ?_⟩
  · exact findCommunity_setCommunity s cid c _ hc
      ((leaveUpdate_id c uid).trans (findCommunity_id s cid c hc))
  · rw [leaveUpdate_members, inRoster]
    constructor
    · intro hfil
      rw [List.any_eq_false]
      intro m hm hmu
      have hmem : m ∈ c.members.filter (fun x => !(x.user = uid)) := by rw [hfil]; exact hm
      have hk := (List.mem_filter.mp hmem).2
      simp at hmu hk
      exact hk hmu
    · intro hro
      apply List.filter_eq_self.mpr
      intro m hm
      have hall := List.any_eq_false.mp hro m hm
      simpa using hall
  · rw [inRoster, leaveUpdate_members, List.any_eq_false]
    intro m hm
    have hk := (List.mem_filter.mp hm).2
    simpa using hk
  · intro m hm hne
    rw [leaveUpdate_members]
    exact List.mem_filter.mpr ⟨hm, by simpa using hne⟩
  · intro m hm
    rw [leaveUpdate_members] at hm
    exact (List.mem_filter.mp hm).1
  · intro hne
    rw [leaveUpdate_members] at hne
    rw [leaveUpdate_preferences, if_pos (List.length_pos.mpr hne), leaveUpdate_members]
  · intro hemp
    rw [leaveUpdate_members] at hemp
    rw [leaveUpdate_preferences, hemp]
    simp

theorem leave_semantics_witness :
    (∃ s', leaveCommunity stateC7 1 5 = { state := s', result := .ok () } ∧
      findCommunity s' 1 = some (leaveUpdate communityC7 5)) ∧
    ((leaveUpdate communityC7 5).members = communityC7.members ↔ inRoster communityC7 5 = false) ∧
    inRoster (leaveUpdate communityC7 5) 5 = false ∧
    (∀ m ∈ communityC7.members, m.user ≠ 5 → m ∈ (leaveUpdate communityC7 5).members) ∧
    (∀ m ∈ (leaveUpdate communityC7 5).members, m ∈ communityC7.members) ∧
    ((leaveUpdate communityC7 5).members ≠ [] →
      (leaveUpdate communityC7 5).preferences.deliveryTime =
        mostPopularTime (leaveUpdate communityC7 5).members) ∧
    ((leaveUpdate communityC7 5).members = [] →
      (leaveUpdate communityC7 5).preferences = communityC7.preferences) :=
  leave_semantics stateC7 1 5 communityC7 (by decide)

/-- C9: `deleteOrder` succeeds exactly when an order with that id owned by the
caller exists; in both other runs — existing order owned by someone else, or
no such order at all — the call returns the one combined `NotFound` outcome
with the store untouched, so a non-owner cannot distinguish the two; and on
success the owned order really is removed. -/
theorem deleteOrder_owner_or_notfound (s : AppState) (oid uid : Nat) :
    ((deleteOrder s oid uid).result = .ok () ↔ ∃ o ∈ s.orders, o.id = oid ∧ o.user = uid) ∧
    ((¬ ∃ o ∈ s.orders, o.id = oid ∧ o.user = uid) →
      deleteOrder s oid uid = { state := s, result := .error .NotFound }) ∧
    ((s.orders.map (fun o => o.id)).Nodup →
      ∀ o ∈ s.orders, o.id = oid → o.user = uid →
        o ∉ (deleteOrder s oid uid).state.orders) := by
  refine ⟨?_, ?_, ?_⟩
  · cases hf : s.orders.find? (fun o => o.id = oid && o.user = uid) with
    | none =>
      simp only [deleteOrder, hf]
      constructor
      · intro h; cases h
      · rintro ⟨o, hm, h1, h2⟩
        have := List.find?_eq_none.mp hf o hm
        simp [h1, h2] at this
    | some o₀ =>
      simp only [deleteOrder, hf]
      have hp := List.find?_some hf
      have hmem := List.mem_of_find?_eq_some hf
      simp only [Bool.and_eq_true, decide_eq_true_eq] at hp
      exact ⟨fun _ => ⟨o₀, hmem, hp.1, hp.2⟩, fun _ => trivial⟩
  · intro hno
    cases hf : s.orders.find? (fun o => o.id = oid && o.user = uid) with
    | none => simp [deleteOrder, hf]
    | some o₀ =>
      have hp := List.find?_some hf
      have hmem := List.mem_of_find?_eq_some hf
      simp only [Bool.and_eq_true, decide_eq_true_eq] at hp
      exact absurd ⟨o₀, hmem, hp.1, hp.2⟩ hno
  · intro hnd o hm hid hu
    have hpo : (fun o => o.id = oid && o.user = uid) o = true := by simp [hid, hu]
    cases hf : s.orders.find? (fun o => o.id = oid && o.user = uid) with
    | none =>
      have := List.find?_eq_none.mp hf o hm
      exact absurd hpo this
    | some o₀ =>
      simp only [deleteOrder, hf]
      obtain ⟨a', l₁, l₂, hl₁, hpa', heq, herase⟩ := List.exists_of_eraseP (p := fun o => o.id = oid && o.user = uid) hm hpo
      rw [herase]
      have ha'mem : a' ∈ s.orders := by rw [heq]; exact List.mem_append_right _ (List.mem_cons_self _ _)
      have ha'id : a'.id = oid := by
        simp only [Bool.and_eq_true, decide_eq_true_eq] at hpa'
        exact hpa'.1
      have hao : a' = o := List.inj_on_of_nodup_map hnd ha'mem hm (ha'id.trans hid.symm)
      intro hcon
      rcases List.mem_append.mp hcon with h1 | h2
      · exact absurd hpo (hl₁ o h1)
      · have hnd' : ((l₁ ++ a' :: l₂).map (fun o => o.id)).Nodup := by rw [← heq]; exact hnd
        rw [List.map_append, List.map_cons] at hnd'
        have hcons := (List.nodup_append.mp hnd').2.1
        have : a'.id ∉ l₂.map (fun o => o.id) := (List.nodup_cons.mp hcons).1
        exact this (List.mem_map.mpr ⟨o, h2, hid.trans ha'id.symm⟩)

theorem deleteOrder_owner_or_notfound_witness :
    deleteOrder stateC9 10 4 = { state := stateC9, result := .error .NotFound } :=
  (deleteOrder_owner_or_notfound stateC9 10 4).2.1 (by decide)

theorem computeTotal_ok (catalog : List Article) :
    ∀ (items : List OrderItem), (∀ i ∈ items, priceOf catalog i.article ≠ 0) →
    ∀ acc : ℚ, computeTotal catalog items acc =
      .ok (acc + (items.map (fun i => priceOf catalog i.article * (i.quantity : ℚ))).sum) := by
  intro items
  induction items with
  | nil => intro _ acc; simp [computeTotal]
  | cons i rest ih =>
    intro hgood acc
    have hi := hgood i (List.mem_cons_self _ _)
    cases hl : priceLookup catalog i.article with
    | none => rw [priceOf, hl] at hi; simp at hi
    | some p =>
      have hp : p ≠ 0 := by rw [priceOf, hl] at hi; simpa using hi
      have hpo : priceOf catalog i.article = p := by rw [priceOf, hl]; rfl
      simp only [computeTotal, hl, if_neg hp]
      rw [ih (fun j hj => hgood j (List.mem_cons_of_mem _ hj))]
      simp [hpo, add_assoc]

theorem computeTotal_err (catalog : List Article) :
    ∀ (items : List OrderItem), (∃ i ∈ items, priceOf catalog i.article = 0) →
    ∀ acc : ℚ, computeTotal catalog items acc = .error .PriceNotFound := by
  intro items
  induction items with
  | nil => rintro ⟨i, hi, -⟩; cases hi
  | cons i rest ih =>
    rintro ⟨j, hj, hjz⟩ acc
    cases hl : priceLookup catalog i.article with
    | none => simp [computeTotal, hl]
    | some p =>
      by_cases hp : p = 0
      · simp [computeTotal, hl, hp]
      · simp only [computeTotal, hl, if_neg hp]
        rcases List.mem_cons.mp hj with rfl | hjr
        · rw [priceOf, hl] at hjz; simp at hjz; exact absurd hjz hp
        · exact ih ⟨j, hjr, hjz⟩ _

/-- C5 (amended): `createOrder` fails — with the `PriceNotFound` creation
failure and without persisting anything — exactly when some item's catalog
lookup is falsy: the article is missing from the catalog *or* its stored
price is 0 (the source's `!articlePrice` guard treats a zero price like a
missing one); when every referenced article exists with a non-zero price the
order is created and appended to the store. -/
theorem createOrder_failure_characterization (s : AppState) (uid cid : Nat)
    (items : List OrderItem) (ddate nid : Nat) :
    ((createOrder s uid cid items ddate nid).result = .error .PriceNotFound ↔
      ∃ i ∈ items, priceOf s.articles i.article = 0) ∧
    ((∃ i ∈ items, priceOf s.articles i.article = 0) →
      (createOrder s uid cid items ddate nid).state = s) ∧
    ((∀ i ∈ items, priceOf s.articles i.article ≠ 0) →
      ∃ o, (createOrder s uid cid items ddate nid).result = .ok o ∧
        (createOrder s uid cid items ddate nid).state.orders = s.orders ++ [o]) ∧
    (∀ aid, priceOf s.articles aid = 0 ↔
      priceLookup s.articles aid = none ∨ priceLookup s.articles aid = some 0) := by
  refine ⟨?_, ?_, ?_, ?_⟩
  · constructor
    · intro hres
      by_contra hno
      push_neg at hno
      rw [createOrder, computeTotal_ok s.articles items hno 0] at hres
      cases hres
    · intro hbad
      rw [createOrder, computeTotal_err s.articles items hbad 0]
  · intro hbad
    rw [createOrder, computeTotal_err s.articles items hbad 0]
  · intro hgood
    rw [createOrder, computeTotal_ok s.articles items hgood 0]
    exact ⟨_, rfl, rfl⟩
  · intro aid
    cases hl : priceLookup s.articles aid with
    | none => simp [priceOf, hl]
    | some p => simp [priceOf, hl]

/-- Counterexample to C5 as stated: every referenced article exists in the
catalog, yet `createOrder` fails with the price-not-found error (and creates
nothing), because the existing article's price is 0 and the guard is a
falsiness test, not an existence test. -/
theorem createOrder_existing_zero_price_fails :
    stateC5.articles.find? (fun a => a.id = (OrderItem.mk 1 1).article) = some (Article.mk 1 0) ∧
    (createOrder stateC5 1 1 [OrderItem.mk 1 1] 0 9).result = .error .PriceNotFound ∧
    (createOrder stateC5 1 1 [OrderItem.mk 1 1] 0 9).state.orders = [] := by
  refine ⟨by decide, by decide, by decide⟩

theorem createOrder_failure_characterization_witness :
    ∃ o, (createOrder stateC9 1 1 [] 0 9).result = .ok o ∧
      (createOrder stateC9 1 1 [] 0 9).state.orders = stateC9.orders ++ [o] :=
  (createOrder_failure_characterization stateC9 1 1 [] 0 9).2.2.1 (by decide)

/-- C8 (amended): whenever every referenced article exists in the catalog
with a non-zero price (the falsy-price guard makes an existing zero-priced
article abort the order, see the counterexample), `createOrder` persists a new
order whose `status` is `pending` and whose frozen `totalAmount` is
`Σ price(article_i) * quantity_i` over the items in order; the spec's sample
basket prices to 8.50. -/
theorem createOrder_total_and_status (s : AppState) (uid cid : Nat)
    (items : List OrderItem) (ddate nid : Nat)
    (hgood : ∀ i ∈ items, priceOf s.articles i.article ≠ 0) :
    ∃ o, (createOrder s uid cid items ddate nid).result = .ok o ∧
      o.totalAmount =
        (items.map (fun i => priceOf s.articles i.article * (i.quantity : ℚ))).sum ∧
      o.status = .pending ∧
      (createOrder s uid cid items ddate nid).state.orders = s.orders ++ [o] := by
  rw [createOrder, computeTotal_ok s.articles items hgood 0]
  exact ⟨_, rfl, by simp, rfl, rfl⟩

theorem createOrder_total_and_status_witness :
    ∃ o, (createOrder stateC8 1 1 [OrderItem.mk 1 3, OrderItem.mk 2 1] 0 9).result = .ok o ∧
      o.totalAmount = 17 / 2 ∧ o.status = .pending := by
  have hp : ∀ i ∈ [OrderItem.mk 1 3, OrderItem.mk 2 1],
      priceOf stateC8.articles i.article ≠ 0 := by
    intro i hi
    fin_cases hi <;> simp [priceOf, priceLookup, stateC8, List.find?]
  obtain ⟨o, h1, h2, h3, -⟩ :=
    createOrder_total_and_status stateC8 1 1 [OrderItem.mk 1 3, OrderItem.mk 2 1] 0 9 hp
  refine ⟨o, h1, ?_, h3⟩
  rw [h2]
  simp [priceOf, priceLookup, stateC8, List.find?]
  norm_num

/-- Counterexample to C8 as stated: in this catalog every article referenced
by the items exists, yet no order is persisted at all — the zero-priced (but
existing) article aborts the computation — so the claim's universally
quantified "computes and persists" fails. -/
theorem createOrder_total_zero_price_aborts :
    stateC8x.articles.find? (fun a => a.id = (OrderItem.mk 4 1).article) = some (Article.mk 4 2) ∧
    stateC8x.articles.find? (fun a => a.id = (OrderItem.mk 3 2).article) = some (Article.mk 3 0) ∧
    (createOrder stateC8x 1 1 [OrderItem.mk 4 1, OrderItem.mk 3 2] 0 9).result =
      .error .PriceNotFound ∧
    (createOrder stateC8x 1 1 [OrderItem.mk 4 1, OrderItem.mk 3 2] 0 9).state.orders = [] := by
  refine ⟨by decide, by decide, by decide, by decide⟩

theorem find?_replaceUser (l : List User) (uid : Nat) (u u' : User)
    (hf : l.find? (fun v => v.id = uid) = some u) (hid : u'.id = uid) :
    (l.map (fun v => if v.id = u'.id then u' else v)).find? (fun v => v.id = uid) = some u' := by
  induction l with
  | nil => simp at hf
  | cons e l ih =>
    by_cases he : e.id = uid
    · simp only [List.map_cons, hid, he, if_pos]
      exact List.find?_cons_of_pos _ (by simp [hid])
    · rw [List.find?_cons_of_neg _ (by simp [he])] at hf
      have he' : ¬(e.id = u'.id) := by rw [hid]; exact he
      simp only [List.map_cons, if_neg he']
      rw [List.find?_cons_of_neg _ (by simp [he])]
      exact ih hf

theorem findUser_setUser (s : AppState) (uid : Nat) (u u' : User)
    (hf : findUser s uid = some u) (hid : u'.id = uid) :
    findUser (setUser s u') uid = some u' := by
  simpa [findUser, setUser] using find?_replaceUser s.users uid u u' hf hid

theorem findUser_id (s : AppState) (uid : Nat) (u : User)
    (hf : findUser s uid = some u) : u.id = uid := by
  have := List.find?_some hf
  simpa using this

/-- Counterexample to C2: the two writes of `join` are not atomic.  Here the
user write succeeds and the community write then fails: the persisted state
has user 7's `community` back-reference set to community 1 while community
1's roster still does not contain 7 — a reachable partial state. -/
theorem join_partial_state_reachable :
    (joinCommunity stateC2 1 7 true false).state.users = [{ id := 7, community := some 1 }] ∧
    (joinCommunity stateC2 1 7 true false).state.communities = [communityC2] ∧
    inRoster communityC2 7 = false ∧
    (joinCommunity stateC2 1 7 true false).result = .error .Unexpected := by
  refine ⟨by decide, by decide, by decide, by decide⟩

/-- C2 (amended): on a fully successful `join` both mutations land together —
the returned community's roster contains the user and the user's
back-reference points at the community.  But the two writes are sequential,
`user.save()` first: if the community write fails after the user write, the
user mutation alone persists (the partial state of the counterexample); if
the user write fails, nothing persists. -/
theorem join_write_ordering (s : AppState) (cid uid : Nat) (c : Community) (u : User)
    (hc : findCommunity s cid = some c) (hnr : inRoster c uid = false)
    (hu : findUser s uid = some u) (hnone : u.community = none) :
    (∃ c', (joinCommunity s cid uid true true).result = .ok c' ∧
      c'.members = c.members ++ [{ user := uid, deliveryTime := .Morning }] ∧
      findCommunity (joinCommunity s cid uid true true).state cid = some c' ∧
      findUser (joinCommunity s cid uid true true).state uid =
        some { u with community := some c.id }) ∧
    ((joinCommunity s cid uid true false).state.users =
        (setUser s { u with community := some c.id }).users ∧
      (joinCommunity s cid uid true false).state.communities = s.communities ∧
      (joinCommunity s cid uid true false).result = .error .Unexpected) ∧
    (∀ cs, (joinCommunity s cid uid false cs).state = s) := by
  have hnone' : u.community.isSome = false := by rw [hnone]; rfl
  have hcid : c.id = cid := findCommunity_id s cid c hc
  have huid : u.id = uid := findUser_id s uid u hu
  refine ⟨⟨{ c with members := c.members ++ [{ user := uid, deliveryTime := .Morning }] },
    ?_, rfl, ?_, ?_⟩, ⟨?_, ?_, ?_⟩, ?_⟩
  · simp [joinCommunity, hc, hnr, hu, hnone']
  · simp only [joinCommunity, hc, hnr, hu, hnone']
    simp only [Bool.false_eq_true, if_false, if_true]
    exact findCommunity_setCommunity (setUser s { u with community := some c.id }) cid c _
      (by simpa [findCommunity, setUser] using hc) hcid
  · simp only [joinCommunity, hc, hnr, hu, hnone']
    simp only [Bool.false_eq_true, if_false, if_true]
    have : findUser (setCommunity (setUser s { u with community := some c.id })
        { c with members := c.members ++ [{ user := uid, deliveryTime := .Morning }] }) uid =
        findUser (setUser s { u with community := some c.id }) uid := rfl
    rw [this]
    exact findUser_setUser s uid u _ hu (by simpa using huid)
  · simp [joinCommunity, hc, hnr, hu, hnone']
  · simp [joinCommunity, hc, hnr, hu, hnone', setUser]
  · simp [joinCommunity, hc, hnr, hu, hnone']
  · intro cs
    simp [joinCommunity, hc, hnr, hu, hnone']

theorem join_write_ordering_witness :
    ∃ c', (joinCommunity stateC2 1 7 true true).result = .ok c' ∧
      c'.members = communityC2.members ++ [{ user := 7, deliveryTime := .Morning }] ∧
      findCommunity (joinCommunity stateC2 1 7 true true).state 1 = some c' ∧
      findUser (joinCommunity stateC2 1 7 true true).state 7 =
        some { id := 7, community := some 1 } :=
  (join_write_ordering stateC2 1 7 communityC2 { id := 7, community := none }
    (by decide) (by decide) (by decide) rfl).1

theorem replace_community_id (c' e : Community) : (if e.id = c'.id then c' else e).id = e.id := by
  split
  · rename_i h; exact h.symm
  · rfl

theorem replace_user_id (u' w : User) : (if w.id = u'.id then u' else w).id = w.id := by
  split
  · rename_i h; exact h.symm
  · rfl

theorem inRoster_append (c : Community) (uid x : Nat) :
    inRoster { c with members := c.members ++ [{ user := uid, deliveryTime := .Morning }] } x =
      (inRoster c x || decide (uid = x)) := by
  simp [inRoster, List.any_append]

theorem setChoiceFirst_any (ms : List Member) (uid : Nat) (t : DeliveryTime) (x : Nat) :
    (setChoiceFirst ms uid t).any (fun m => m.user = x) = ms.any (fun m => m.user = x) := by
  induction ms with
  | nil => rfl
  | cons m rest ih =>
    by_cases hm : m.user = uid
    · simp [setChoiceFirst, hm]
    · simp [setChoiceFirst, hm, ih]

theorem setChoiceFirst_mem_user (ms : List Member) (uid : Nat) (t : DeliveryTime) :
    ∀ m ∈ setChoiceFirst ms uid t, ∃ m' ∈ ms, m'.user = m.user := by
  induction ms with
  | nil => intro m hm; cases hm
  | cons m₀ rest ih =>
    intro m hm
    by_cases h0 : m₀.user = uid
    · rw [setChoiceFirst, if_pos h0] at hm
      rcases List.mem_cons.mp hm with rfl | hr
      · exact ⟨m₀, List.mem_cons_self _ _, rfl⟩
      · exact ⟨m, List.mem_cons_of_mem _ hr, rfl⟩
    · rw [setChoiceFirst, if_neg h0] at hm
      rcases List.mem_cons.mp hm with rfl | hr
      · exact ⟨m, List.mem_cons_self _ _, rfl⟩
      · obtain ⟨m', hm', he⟩ := ih m hr
        exact ⟨m', List.mem_cons_of_mem _ hm', he⟩

theorem consistent_setCommunity_of (s : AppState) (c c₂ : Community)
    (hwfC : (s.communities.map (fun d => d.id)).Nodup)
    (hcons : consistentState s)
    (hcm : c ∈ s.communities) (hid : c₂.id = c.id)
    (hro : ∀ x, inRoster c₂ x = inRoster c x)
    (husers : ∀ m ∈ c₂.members, ∃ m' ∈ c.members, m'.user = m.user) :
    consistentState (setCommunity s c₂) := by
  obtain ⟨h1, h2, h3⟩ := hcons
  refine ⟨?_, ?_, ?_⟩
  · intro u hu d hd
    obtain ⟨e, he, hdeq⟩ := List.mem_map.mp hd
    by_cases heid : e.id = c₂.id
    · have hec : e = c :=
        List.inj_on_of_nodup_map hwfC he hcm (heid.trans hid)
      rw [← hdeq, if_pos heid, hid, hro]
      exact hec ▸ h1 u hu e he
    · rw [← hdeq, if_neg heid]
      exact h1 u hu e he
  · intro u hu
    rcases h2 u hu with h | ⟨c₀, hc₀, huc⟩
    · exact Or.inl h
    · refine Or.inr ⟨if c₀.id = c₂.id then c₂ else c₀, List.mem_map.mpr ⟨c₀, hc₀, rfl⟩, ?_⟩
      rw [replace_community_id]
      exact huc
  · intro d hd m hm
    obtain ⟨e, he, hdeq⟩ := List.mem_map.mp hd
    by_cases heid : e.id = c₂.id
    · rw [← hdeq, if_pos heid] at hm
      obtain ⟨m', hm', hme⟩ := husers m hm
      obtain ⟨u, hu, hui⟩ := h3 c hcm m' hm'
      exact ⟨u, hu, hui.trans hme⟩
    · rw [← hdeq, if_neg heid] at hm
      exact h3 e he m hm

theorem consistent_join_success (s : AppState) (cid uid : Nat) (c : Community) (u : User)
    (hwfU : (s.users.map (fun v => v.id)).Nodup)
    (hwfC : (s.communities.map (fun d => d.id)).Nodup)
    (hcons : consistentState s)
    (hc : findCommunity s cid = some c) (hnr : inRoster c uid = false)
    (hu : findUser s uid = some u) (hnone : u.community = none) :
    consistentState (setCommunity (setUser s { u with community := some c.id })
      { c with members := c.members ++ [{ user := uid, deliveryTime := .Morning }] }) := by
  obtain ⟨h1, h2, h3⟩ := hcons
  have hcm : c ∈ s.communities := List.mem_of_find?_eq_some hc
  have hum : u ∈ s.users := List.mem_of_find?_eq_some hu
  have huid : u.id = uid := findUser_id s uid u hu
  set u' : User := { u with community := some c.id } with hu'
  set c' : Community := { c with members := c.members ++ [{ user := uid, deliveryTime := .Morning }] } with hc'
  have hcid' : c'.id = c.id := rfl
  have huid' : u'.id = u.id := rfl
  have husers : (setCommunity (setUser s u') c').users =
      s.users.map (fun w => if w.id = u'.id then u' else w) := rfl
  have hcomms : (setCommunity (setUser s u') c').communities =
      s.communities.map (fun e => if e.id = c'.id then c' else e) := rfl
  refine ⟨?_, ?_, ?_⟩
  · intro v hv d hd
    rw [husers] at hv
    rw [hcomms] at hd
    obtain ⟨w, hw, hveq⟩ := List.mem_map.mp hv
    obtain ⟨e, he, hdeq⟩ := List.mem_map.mp hd
    by_cases hwid : w.id = u'.id
    · have hwu : w = u := List.inj_on_of_nodup_map hwfU hw hum (hwid.trans huid')
      rw [← hveq, if_pos hwid]
      by_cases heid : e.id = c'.id
      · have hec : e = c := List.inj_on_of_nodup_map hwfC he hcm (heid.trans hcid')
        rw [← hdeq, if_pos heid]
        have hl : u'.community = some c'.id := rfl
        have hr : inRoster c' u'.id = true := by
          rw [hc', inRoster_append, huid', huid]
          simp
        simp [hl, hr]
      · rw [← hdeq, if_neg heid]
        have hl : ¬(u'.community = some e.id) := by
          intro hcon
          rw [hu'] at hcon
          have hce : c.id = e.id := by simpa using hcon
          exact heid (hce.symm.trans hcid'.symm)
        have hr : inRoster e u'.id = false := by
          have hiff := h1 u hum e he
          rw [hnone] at hiff
          rw [huid']
          by_contra hcon
          rw [Bool.not_eq_false] at hcon
          exact Option.noConfusion (hiff.mpr hcon)
        rw [hr]
        simp [hl]
    · rw [← hveq, if_neg hwid]
      by_cases heid : e.id = c'.id
      · have hec : e = c := List.inj_on_of_nodup_map hwfC he hcm (heid.trans hcid')
        rw [← hdeq, if_pos heid]
        have hr : inRoster c' w.id = inRoster c w.id := by
          rw [hc', inRoster_append]
          have : decide (uid = w.id) = false := by
            simp only [decide_eq_false_iff_not]
            intro hcon
            exact hwid (by rw [huid', huid, hcon])
          rw [this, Bool.or_false]
        rw [hr, hcid']
        exact hec ▸ h1 w hw e he
      · rw [← hdeq, if_neg heid]
        exact h1 w hw e he
  · intro v hv
    rw [husers] at hv
    obtain ⟨w, hw, hveq⟩ := List.mem_map.mp hv
    by_cases hwid : w.id = u'.id
    · rw [← hveq, if_pos hwid]
      refine Or.inr ⟨c', ?_, rfl⟩
      rw [hcomms]
      exact List.mem_map.mpr ⟨c, hcm, by rw [if_pos hcid'.symm.symm]⟩
    · rw [← hveq, if_neg hwid]
      rcases h2 w hw with h | ⟨c₀, hc₀, hwc⟩
      · exact Or.inl h
      · refine Or.inr ⟨if c₀.id = c'.id then c' else c₀, ?_, ?_⟩
        · rw [hcomms]
          exact List.mem_map.mpr ⟨c₀, hc₀, rfl⟩
        · rw [replace_community_id]
          exact hwc
  · intro d hd m hm
    rw [hcomms] at hd
    obtain ⟨e, he, hdeq⟩ := List.mem_map.mp hd
    by_cases heid : e.id = c'.id
    · rw [← hdeq, if_pos heid] at hm
      rw [hc'] at hm
      rcases List.mem_append.mp hm with hold | hnew
      · obtain ⟨w, hw, hwi⟩ := h3 c hcm m hold
        refine ⟨if w.id = u'.id then u' else w, ?_, ?_⟩
        · rw [husers]
          exact List.mem_map.mpr ⟨w, hw, rfl⟩
        · rw [replace_user_id]
          exact hwi
      · have hmu : m.user = uid := by
          rcases List.mem_singleton.mp hnew with rfl
          rfl
        refine ⟨u', ?_, ?_⟩
        · rw [husers]
          exact List.mem_map.mpr ⟨u, hum, by rw [if_pos (huid'.symm ▸ rfl)]⟩
        · rw [huid', huid, hmu]
    · rw [← hdeq, if_neg heid] at hm
      obtain ⟨w, hw, hwi⟩ := h3 e he m hm
      refine ⟨if w.id = u'.id then u' else w, ?_, ?_⟩
      · rw [husers]
        exact List.mem_map.mpr ⟨w, hw, rfl⟩
      · rw [replace_user_id]
        exact hwi

/-- C4 (amended): from a consistent, well-keyed state, `join`,
`voteForDeliveryTime` and `updatePreferences` preserve the bidirectional
membership invariant (on success and on every error path).  `createCommunity`
does not: it never writes the founder's `community` back-reference, so the
founding member is on the new roster while their user record still carries no
reference (see the counterexample); `leave` likewise leaves the departing
user's back-reference in place. -/
theorem consistency_preserved_join_vote_prefs (s : AppState) (cid uid : Nat)
    (choice : DeliveryTime) (day : Day) (time : DeliveryTime)
    (hwf : wellFormed s) (hcons : consistentState s) :
    consistentState (joinCommunity s cid uid true true).state ∧
    consistentState (voteForDeliveryTime s cid uid choice).state ∧
    consistentState (updatePreferences s cid day time).state := by
  obtain ⟨hwfU, hwfC⟩ := hwf
  refine ⟨?_, ?_, ?_⟩
  · cases hc : findCommunity s cid with
    | none => simpa [joinCommunity, hc] using hcons
    | some c =>
      by_cases hro : inRoster c uid = true
      · simpa [joinCommunity, hc, hro] using hcons
      · cases hu : findUser s uid with
        | none => simpa [joinCommunity, hc, hro, hu] using hcons
        | some u =>
          by_cases hus : u.community.isSome
          · simpa [joinCommunity, hc, hro, hu, hus] using hcons
          · have hnone : u.community = none := Option.not_isSome_iff_eq_none.mp hus
            have key := consistent_join_success s cid uid c u hwfU hwfC hcons hc
              (by simpa using hro) hu hnone
            simpa [joinCommunity, hc, hro, hu, hus] using key
  · cases hc : findCommunity s cid with
    | none => simpa [voteForDeliveryTime, hc] using hcons
    | some c =>
      by_cases hro : inRoster c uid = true
      · have key := consistent_setCommunity_of s c
          (updateCommunityDeliveryTime { c with members := setChoiceFirst c.members uid choice })
          hwfC ⟨hcons.1, hcons.2.1, hcons.2.2⟩ (List.mem_of_find?_eq_some hc) rfl
          (fun x => by simp [inRoster, updateCommunityDeliveryTime, setChoiceFirst_any])
          (fun m hm => setChoiceFirst_mem_user c.members uid choice m (by simpa using hm))
        simpa [voteForDeliveryTime, hc, hro] using key
      · simpa [voteForDeliveryTime, hc, hro] using hcons
  · cases hc : findCommunity s cid with
    | none => simpa [updatePreferences, hc] using hcons
    | some c =>
      have key := consistent_setCommunity_of s c
        { c with preferences := { deliveryDay := day, deliveryTime := time } }
        hwfC ⟨hcons.1, hcons.2.1, hcons.2.2⟩ (List.mem_of_find?_eq_some hc) rfl
        (fun x => rfl) (fun m hm => ⟨m, hm, rfl⟩)
      simpa [updatePreferences, hc] using key

/-- Counterexample to C4 as stated: from a consistent state, `createCommunity`
puts the founder on the new community's roster but never sets the founder's
`community` back-reference, so bidirectional consistency fails immediately
after the founding operation. -/
theorem createCommunity_breaks_consistency :
    wellFormed stateC4 ∧ consistentState stateC4 ∧
    ¬ consistentState (createCommunity stateC4 7 1).state := by
  refine ⟨by decide, by decide, by decide⟩

theorem consistency_preserved_join_vote_prefs_witness :
    consistentState (joinCommunity stateC4w 1 7 true true).state :=
  (consistency_preserved_join_vote_prefs stateC4w 1 7 .Evening .Monday .Morning
    (by decide) (by decide)).1

theorem notInRoster_not_memMap (c : Community) (uid : Nat) (h : ¬ inRoster c uid = true) :
    uid ∉ c.members.map (fun m => m.user) := by
  intro hmem
  obtain ⟨m, hm, hmu⟩ := List.mem_map.mp hmem
  exact h (List.any_eq_true.mpr ⟨m, hm, by simp [hmu]⟩)

/-- C6: roster `userRef`s stay pairwise distinct across every operation —
`createCommunity` starts a singleton roster, `join` appends only a user it
just checked absent, `leave` only removes, `vote` rewrites a choice but no
user id, `updatePreferences` touches no roster — and a second `join` by an
existing member fails with the already-member conflict, changing nothing. -/
theorem roster_user_uniqueness (s : AppState) (cid uid nid : Nat)
    (choice : DeliveryTime) (day : Day) (time : DeliveryTime) (us cs : Bool)
    (hnd : ∀ c ∈ s.communities, rosterNodup c) :
    (∀ c ∈ (createCommunity s uid nid).state.communities, rosterNodup c) ∧
    (∀ c ∈ (joinCommunity s cid uid us cs).state.communities, rosterNodup c) ∧
    (∀ c ∈ (leaveCommunity s cid uid).state.communities, rosterNodup c) ∧
    (∀ c ∈ (voteForDeliveryTime s cid uid choice).state.communities, rosterNodup c) ∧
    (∀ c ∈ (updatePreferences s cid day time).state.communities, rosterNodup c) ∧
    (∀ c, findCommunity s cid = some c → inRoster c uid = true →
      joinCommunity s cid uid us cs = { state := s, result := .error .AlreadyMember }) := by
  refine ⟨?_, ?_, ?_, ?_, ?_, ?_⟩
  · intro d hd
    rcases List.mem_append.mp hd with hold | hnew
    · exact hnd d hold
    · rcases List.mem_singleton.mp hnew with rfl
      simp [rosterNodup]
  · cases hc : findCommunity s cid with
    | none => simpa [joinCommunity, hc] using hnd
    | some c =>
      by_cases hro : inRoster c uid = true
      · simpa [joinCommunity, hc, hro] using hnd
      · cases hu : findUser s uid with
        | none => simpa [joinCommunity, hc, hro, hu] using hnd
        | some u =>
          by_cases hus : u.community.isSome
          · simpa [joinCommunity, hc, hro, hu, hus] using hnd
          · have hcm : c ∈ s.communities := List.mem_of_find?_eq_some hc
            have hkey : ∀ d ∈ (s.communities.map (fun e =>
                if e.id = c.id then
                  { c with members := c.members ++ [{ user := uid, deliveryTime := .Morning }] }
                else e)), rosterNodup d := by
              intro d hd
              obtain ⟨e, he, hdeq⟩ := List.mem_map.mp hd
              by_cases heid : e.id = c.id
              · rw [← hdeq, if_pos heid]
                show (((c.members ++ [Member.mk uid .Morning]).map
                  (fun m => m.user))).Nodup
                rw [List.map_append]
                rw [List.nodup_append]
                refine ⟨hnd c hcm, by simp, ?_⟩
                intro x hx
                simp only [List.map_cons, List.map_nil, List.mem_singleton]
                intro hxe
                rw [hxe] at hx
                exact notInRoster_not_memMap c uid hro hx
              · rw [← hdeq, if_neg heid]
                exact hnd e he
            cases us with
            | false => simpa [joinCommunity, hc, hro, hu, hus] using hnd
            | true =>
              cases cs with
              | false => simpa [joinCommunity, hc, hro, hu, hus, setUser] using hnd
              | true => simpa [joinCommunity, hc, hro, hu, hus, setCommunity, setUser] using hkey
  · cases hc : findCommunity s cid with
    | none => simpa [leaveCommunity, hc] using hnd
    | some c =>
      have hcm : c ∈ s.communities := List.mem_of_find?_eq_some hc
      have hkey : ∀ d ∈ (setCommunity s (leaveUpdate c uid)).communities, rosterNodup d := by
        intro d hd
        obtain ⟨e, he, hdeq⟩ := List.mem_map.mp hd
        by_cases heid : e.id = (leaveUpdate c uid).id
        · rw [← hdeq, if_pos heid]
          show ((leaveUpdate c uid).members.map (fun m => m.user)).Nodup
          rw [leaveUpdate_members]
          exact (hnd c hcm).sublist ((List.filter_sublist _).map _)
        · rw [← hdeq, if_neg heid]
          exact hnd e he
      simpa [leaveCommunity, hc] using hkey
  · cases hc : findCommunity s cid with
    | none => simpa [voteForDeliveryTime, hc] using hnd
    | some c =>
      by_cases hro : inRoster c uid = true
      · have hcm : c ∈ s.communities := List.mem_of_find?_eq_some hc
        have hmap : (setChoiceFirst c.members uid choice).map (fun m => m.user) =
            c.members.map (fun m => m.user) := by
          clear hro hc
          induction c.members with
          | nil => rfl
          | cons m rest ih =>
            by_cases hm : m.user = uid
            · simp [setChoiceFirst, hm]
            · simp [setChoiceFirst, hm, ih]
        have hkey : ∀ d ∈ (setCommunity s (updateCommunityDeliveryTime
            { c with members := setChoiceFirst c.members uid choice })).communities,
            rosterNodup d := by
          intro d hd
          obtain ⟨e, he, hdeq⟩ := List.mem_map.mp hd
          by_cases heid : e.id = (updateCommunityDeliveryTime
              { c with members := setChoiceFirst c.members uid choice }).id
          · rw [← hdeq, if_pos heid]
            show ((setChoiceFirst c.members uid choice).map (fun m => m.user)).Nodup
            rw [hmap]
            exact hnd c hcm
          · rw [← hdeq, if_neg heid]
            exact hnd e he
        simpa [voteForDeliveryTime, hc, hro] using hkey
      · simpa [voteForDeliveryTime, hc, hro] using hnd
  · cases hc : findCommunity s cid with
    | none => simpa [updatePreferences, hc] using hnd
    | some c =>
      have hcm : c ∈ s.communities := List.mem_of_find?_eq_some hc
      have hkey : ∀ d ∈ (setCommunity s
          { c with preferences := { deliveryDay := day, deliveryTime := time } }).communities,
          rosterNodup d := by
        intro d hd
        obtain ⟨e, he, hdeq⟩ := List.mem_map.mp hd
        by_cases heid : e.id =
            (Community.mk c.id c.members { deliveryDay := day, deliveryTime := time }).id
        · rw [← hdeq, if_pos heid]
          exact hnd c hcm
        · rw [← hdeq, if_neg heid]
          exact hnd e he
      simpa [updatePreferences, hc] using hkey
  · intro c hc hro
    simp [joinCommunity, hc, hro]

theorem roster_user_uniqueness_witness :
    joinCommunity stateC6 1 5 true true = { state := stateC6, result := .error .AlreadyMember } :=
  (roster_user_uniqueness stateC6 1 5 99 .Morning .Monday .Morning true true (by decide)).2.2.2.2.2
    { id := 1, members := [{ user := 5, deliveryTime := .Afternoon }]
      preferences := { deliveryDay := .Monday, deliveryTime := .Afternoon } }
    (by decide) (by decide)
